import Mathlib

/-!
Verification of the MLLP transport core of the repository
(`RevStream/billing-simulator/server.py` and `RevStream/hl7-sender/sender.py`).

Bytes are modelled as `List Nat` (each element one byte value), Python `str`
values as `List Char` (a Python string is a sequence of Unicode code points;
every string this code manipulates consists of Unicode scalar values, since
they come from `bytes.decode('utf-8', errors='replace')` or from literals).

Each definition is a direct translation of the corresponding Python
function; doc comments name the source lines.
-/

namespace MLLP

/-- `MLLP_START = b'\x0b'` (server.py line 15 / sender.py line 15). -/
def MLLP_START : Nat := 0x0b

/-- `MLLP_END = b'\x1c\x0d'` (server.py line 16 / sender.py line 16). -/
def MLLP_END : List Nat := [0x1c, 0x0d]

/-- Python `MLLP_START in buffer`: the single start byte occurs in the buffer. -/
def hasStart (buf : List Nat) : Bool := buf.contains 0x0b

/-- Python `MLLP_END in buffer`: the two-byte sequence `0x1c 0x0d` occurs
(contiguously) somewhere in the buffer. -/
def hasEnd : List Nat → Bool
  | a :: b :: rest => (a == 0x1c && b == 0x0d) || hasEnd (b :: rest)
  | _ => false

/-- Python `buffer.index(MLLP_START)`: index of the first `0x0b` byte.
`buffer.index` raises when the byte is absent; the server only calls it under
the `MLLP_START in buffer` guard, so absence never occurs there.  We make the
function total by returning the list length in that case. -/
def idxStart : List Nat → Nat
  | [] => 0
  | a :: rest => if a = 0x0b then 0 else idxStart rest + 1

/-- Python `buffer.index(MLLP_END)`: index of the first occurrence of the
two-byte sequence `0x1c 0x0d`.  Total; returns the list length when the
sequence is absent (the server only calls it under the `MLLP_END in buffer`
guard). -/
def endIdx : List Nat → Nat
  | a :: b :: rest => if a = 0x1c ∧ b = 0x0d then 0 else endIdx (b :: rest) + 1
  | l => l.length

/-- `MLLP_START + payload + MLLP_END` at byte level (sender.py line 32 builds
this from an encoded string; the server's framing assumes the same shape). -/
def mllpEncode (p : List Nat) : List Nat := MLLP_START :: p ++ MLLP_END

/-- Python slice `l[a:b]` (with `0 ≤ a, b`): clamping slice semantics. -/
def pySlice (l : List Nat) (a b : Nat) : List Nat := (l.drop a).take (b - a)

/-- Number of non-overlapping `0x1c 0x0d` pairs in a byte list, counted left
to right — after a pair is found, counting resumes with the byte after it.
This is the number of decode passes `handle_client`'s loop spends inside
leading noise: each pass consumes through the buffer's first end-marker
pair (`buffer.index(MLLP_END) + 2`), so each such pair costs one pass, and
each of those passes emits one empty payload when the pair lies before the
first start marker. -/
def pairCount : List Nat → Nat
  | a :: b :: rest =>
    if a = 0x1c ∧ b = 0x0d then pairCount rest + 1 else pairCount (b :: rest)
  | _ => 0

theorem hasEnd_length {buf : List Nat} (h : hasEnd buf = true) : 2 ≤ buf.length := by
  match buf with
  | [] => simp [hasEnd] at h
  | [a] => simp [hasEnd] at h
  | a :: b :: rest => simp

/-- The frame-extraction loop of `handle_client` (server.py lines 113-123):

    while MLLP_START in buffer and MLLP_END in buffer:
        start_idx = buffer.index(MLLP_START)
        end_idx = buffer.index(MLLP_END) + len(MLLP_END)
        mllp_message = buffer[start_idx:end_idx]
        buffer = buffer[end_idx:]
        hl7_message = mllp_message[1:-2]...

Returns the list of extracted raw payloads (the bytes `mllp_message[1:-2]`
of each iteration, before UTF-8 decoding) in order, together with the
remaining buffer.  Note the end marker is searched from the start of the
buffer, not from `start_idx`. -/
def mllpDrain (buf : List Nat) : List (List Nat) × List Nat :=
  if h : hasStart buf = true ∧ hasEnd buf = true then
    let s := idxStart buf
    let e := endIdx buf + 2
    let msg := pySlice buf s e
    let payload := (msg.drop 1).take (msg.length - 3)
    let rest := buf.drop e
    let r := mllpDrain rest
    (payload :: r.1, r.2)
  else
    ([], buf)
termination_by buf.length
decreasing_by
  simp only [List.length_drop]
  have h2 := hasEnd_length h.2
  omega

end MLLP

namespace PyStr

/-- UTF-8 encoding of one Unicode scalar value, as Python `str.encode()`
produces for one character. -/
def utf8EncodeChar (c : Char) : List Nat :=
  let n := c.toNat
  if n < 0x80 then [n]
  else if n < 0x800 then [0xc0 + n / 64, 0x80 + n % 64]
  else if n < 0x10000 then [0xe0 + n / 4096, 0x80 + n / 64 % 64, 0x80 + n % 64]
  else [0xf0 + n / 262144, 0x80 + n / 4096 % 64, 0x80 + n / 64 % 64, 0x80 + n % 64]

/-- Python `str.encode()` (UTF-8 encoding of the whole string). -/
def utf8Encode : List Char → List Nat
  | [] => []
  | c :: cs => utf8EncodeChar c ++ utf8Encode cs

/-- U+FFFD REPLACEMENT CHARACTER. -/
def replChar : Char := Char.ofNat 0xfffd

/-- Python `bytes.decode('utf-8', errors='replace')`: standard UTF-8 decoding
where each maximal subpart of an ill-formed subsequence is replaced by one
U+FFFD (CPython follows the Unicode recommended practice: an invalid lead
byte, a lead byte whose allowed continuation range is violated, or a
truncated sequence each produce a single U+FFFD, and decoding resumes at the
first unconsumed byte).  Overlong encodings, surrogates and values above
U+10FFFF are ill-formed. -/
def utf8DecodeReplace : List Nat → List Char
  | [] => []
  | b :: rest =>
    if b < 0x80 then Char.ofNat b :: utf8DecodeReplace rest
    else if b < 0xc2 then replChar :: utf8DecodeReplace rest
    else if b < 0xe0 then
      match rest with
      | [] => [replChar]
      | b1 :: r1 =>
        if 0x80 ≤ b1 ∧ b1 < 0xc0 then
          Char.ofNat ((b - 0xc0) * 64 + (b1 - 0x80)) :: utf8DecodeReplace r1
        else replChar :: utf8DecodeReplace (b1 :: r1)
    else if b < 0xf0 then
      match rest with
      | [] => [replChar]
      | b1 :: r1 =>
        if (if b = 0xe0 then 0xa0 else 0x80) ≤ b1 ∧ b1 < (if b = 0xed then 0xa0 else 0xc0) then
          match r1 with
          | [] => [replChar]
          | b2 :: r2 =>
            if 0x80 ≤ b2 ∧ b2 < 0xc0 then
              Char.ofNat ((b - 0xe0) * 4096 + (b1 - 0x80) * 64 + (b2 - 0x80)) ::
                utf8DecodeReplace r2
            else replChar :: utf8DecodeReplace (b2 :: r2)
        else replChar :: utf8DecodeReplace (b1 :: r1)
    else if b < 0xf5 then
      match rest with
      | [] => [replChar]
      | b1 :: r1 =>
        if (if b = 0xf0 then 0x90 else 0x80) ≤ b1 ∧ b1 < (if b = 0xf4 then 0x90 else 0xc0) then
          match r1 with
          | [] => [replChar]
          | b2 :: r2 =>
            if 0x80 ≤ b2 ∧ b2 < 0xc0 then
              match r2 with
              | [] => [replChar]
              | b3 :: r3 =>
                if 0x80 ≤ b3 ∧ b3 < 0xc0 then
                  Char.ofNat
                      ((b - 0xf0) * 262144 + (b1 - 0x80) * 4096 + (b2 - 0x80) * 64 +
                        (b3 - 0x80)) ::
                    utf8DecodeReplace r3
                else replChar :: utf8DecodeReplace (b3 :: r3)
            else replChar :: utf8DecodeReplace (b2 :: r2)
        else replChar :: utf8DecodeReplace (b1 :: r1)
    else replChar :: utf8DecodeReplace rest

/-- Python `s.startswith(pre)`. -/
def strStarts (pre s : List Char) : Bool := s.take pre.length == pre

end PyStr

namespace Server

open MLLP PyStr

/-- The five control fields `create_ack` pulls from the MSH segment
(server.py lines 36-47). -/
structure CtrlFields where
  sending_app : List Char
  sending_facility : List Char
  receiving_app : List Char
  receiving_facility : List Char
  msg_control_id : List Char
deriving DecidableEq

/-- The control-field extraction inside `create_ack` (server.py lines 31-47):
split the message on `'\r'`, take the first line (Python `''.split('\r')` is
`['']`, so `lines` is never empty and `lines[0]` never raises), split it on
`'|'`, and read fields 2,3,4,5,9 when at least 10 fields exist, else the
documented sentinel defaults.  `first_line_fields` is the shared
`lines[0].split('|')` computation (`fields` at server.py line 35). -/
def first_line_fields (message : List Char) : List (List Char) :=
  ((message.splitOn '\r').headD []).splitOn '|'

def ctrl_fields (message : List Char) : CtrlFields :=
  let fields := first_line_fields message
  if fields.length ≥ 10 then
    ⟨fields.getD 2 [], fields.getD 3 [], fields.getD 4 [], fields.getD 5 [],
      fields.getD 9 []⟩
  else
    ⟨"UNKNOWN".data, "UNKNOWN".data, "BILLING".data, "HOSPITAL".data, "0".data⟩

/-- The ACK string built by `create_ack` (server.py lines 49-55), with the
`datetime.datetime.now().strftime(...)` timestamp supplied as a parameter. -/
def ack_payload (timestamp message : List Char) : List Char :=
  let c := ctrl_fields message
  "MSH|^~\\&|".data ++ c.receiving_app ++ "|".data ++ c.receiving_facility ++ "|".data ++
    c.sending_app ++ "|".data ++ c.sending_facility ++ "|".data ++ timestamp ++
    "||ACK^P03|".data ++ c.msg_control_id ++ "|P|2.5\r".data ++
    "MSA|AA|".data ++ c.msg_control_id ++ "|Message received successfully\r".data

/-- `create_ack` (server.py lines 29-57): `MLLP_START + ack.encode() + MLLP_END`. -/
def create_ack (timestamp message : List Char) : List Nat :=
  MLLP_START :: utf8Encode (ack_payload timestamp message) ++ MLLP_END

/-- The dict built by `extract_message_info` (server.py lines 72-96). -/
structure MsgInfo where
  message_type : List Char
  patient_id : List Char
  codes : List (List Char)
deriving DecidableEq

/-- One iteration of the `for line in lines` loop of `extract_message_info`
(server.py lines 81-94). -/
def extract_info_step (info : MsgInfo) (line : List Char) : MsgInfo :=
  if strStarts "MSH|".data line then
    let fields := line.splitOn '|'
    if fields.length > 8 then { info with message_type := fields.getD 8 [] } else info
  else if strStarts "PID|".data line then
    let fields := line.splitOn '|'
    if fields.length > 3 then { info with patient_id := fields.getD 3 [] } else info
  else if strStarts "FT1|".data line then
    let fields := line.splitOn '|'
    if fields.length > 25 then
      { info with
        codes := info.codes ++ [if fields.length > 24 then fields.getD 24 [] else "N/A".data] }
    else info
  else info

/-- `extract_message_info` (server.py lines 72-96). -/
def extract_message_info (message : List Char) : MsgInfo :=
  (message.splitOn '\r').foldl extract_info_step ⟨"Unknown".data, "Unknown".data, []⟩

/-- Observable actions of one iteration of the receiver's drain loop. -/
inductive Event where
  | stored (payload : List Char)
  | storeFailed (payload : List Char)
  | acked (frame : List Nat)
deriving DecidableEq

/-- The drain loop of `handle_client` (server.py lines 113-141) with its side
effects made explicit.  `storeOk` tells whether `save_message` succeeds for a
given decoded payload; `ts` gives the timestamp `create_ack` reads for the
`k`-th message of the session.  Each iteration extracts a frame exactly as
`mllpDrain` does, UTF-8-decodes it with replacement, attempts to save it and
then sends the ACK.  If `save_message` raises, the exception propagates out
of both `while` loops into the `except` handler (lines 144-148): no ACK is
sent for that message, nothing further is processed, and the connection is
closed — reported here as the final `true` ("session aborted") flag. -/
def drainEvents (storeOk : List Char → Bool) (ts : Nat → List Char) (k : Nat)
    (buf : List Nat) : List Event × List Nat × Bool :=
  if h : hasStart buf = true ∧ hasEnd buf = true then
    let s := idxStart buf
    let e := endIdx buf + 2
    let msg := pySlice buf s e
    let hl7 := utf8DecodeReplace ((msg.drop 1).take (msg.length - 3))
    let rest := buf.drop e
    if storeOk hl7 then
      let r := drainEvents storeOk ts (k + 1) rest
      (Event.stored hl7 :: Event.acked (create_ack (ts k) hl7) :: r.1, r.2)
    else
      ([Event.storeFailed hl7], rest, true)
  else
    ([], buf, false)
termination_by buf.length
decreasing_by
  simp only [List.length_drop]
  have h2 := hasEnd_length h.2
  omega

end Server

namespace Sender

open MLLP PyStr

/-- `mllp_message = MLLP_START + message.encode() + MLLP_END` (sender.py
line 32): the frame the sender transmits for a message string. -/
def wrapMessage (message : List Char) : List Nat :=
  MLLP_START :: utf8Encode message ++ MLLP_END

/-- One event observed by the sender's receive loop: either `sock.recv`
returns a chunk of bytes (the empty chunk models the peer closing the
socket — Python `recv` returns `b''`), or the 30-second socket timeout
fires (Python raises `socket.timeout`). -/
inductive RecvEv where
  | chunk (bs : List Nat)
  | tmo
deriving DecidableEq

/-- Outcome of `sock.connect` (sender.py line 39): success, timeout
(`socket.timeout`), `ConnectionRefusedError`, or any other `Exception` with
message `m`. -/
inductive ConnRes where
  | ok
  | connTimeout
  | refused
  | err (m : List Char)

/-- `response.replace(MLLP_END, b'')` (sender.py line 56): remove every
non-overlapping occurrence of the two-byte end sequence, left to right. -/
def removeEnd : List Nat → List Nat
  | 0x1c :: 0x0d :: rest => removeEnd rest
  | a :: rest => a :: removeEnd rest
  | [] => []

/-- Sender.py lines 55-59: what `send_hl7_message` does with the accumulated
response after the receive loop: if any bytes arrived, strip all `0x0b`
bytes (`replace(MLLP_START, b'')`), strip end-marker pairs
(`replace(MLLP_END, b'')`), and UTF-8-decode with replacement; otherwise
return the literal string `"No response received"`. -/
def respond (resp : List Nat) : List Char :=
  if resp ≠ [] then utf8DecodeReplace (removeEnd (resp.filter (fun b => b != 0x0b)))
  else "No response received".data

/-- The receive loop of `send_hl7_message` (sender.py lines 45-52):

    response = b''
    while True:
        data = sock.recv(4096)
        if not data:
            break
        response += data
        if MLLP_END in response:
            break

A `socket.timeout` raised by `recv` is caught at line 61 and turned into the
string `"Connection timed out"`.  An exhausted event list is read as the
peer closing the socket. -/
def recvLoop : List Nat → List RecvEv → List Char
  | resp, [] => respond resp
  | _, RecvEv.tmo :: _ => "Connection timed out".data
  | resp, RecvEv.chunk bs :: rest =>
    if bs = [] then respond resp
    else
      let r := resp ++ bs
      if hasEnd r then respond r else recvLoop r rest

/-- `send_hl7_message` (sender.py lines 28-68) as a function of the network
behaviour: the connection outcome and the sequence of receive events.  The
Python function returns a plain string in every case — error conditions are
reported in-band as the strings built at lines 59-66, not as exceptions. -/
def send_hl7_message (message : List Char) (conn : ConnRes) (evs : List RecvEv) :
    List Char :=
  match conn with
  | ConnRes.connTimeout => "Connection timed out".data
  | ConnRes.refused => "Connection refused - is the server running?".data
  | ConnRes.err m => "Error: ".data ++ m
  | ConnRes.ok => recvLoop [] evs

end Sender

section Sanity

open MLLP

example : mllpDrain (mllpEncode [65, 66]) = ([[65, 66]], []) := by
  simp [mllpDrain, mllpEncode, hasStart, hasEnd, idxStart, endIdx, pySlice, MLLP_START,
    MLLP_END]
example : mllpDrain [1, 2, 3] = ([], [1, 2, 3]) := by
  simp [mllpDrain, hasStart, hasEnd, idxStart, endIdx, pySlice]
-- lone 0x1c is not a terminator
example : mllpDrain [0x0b, 65, 0x1c] = ([], [0x0b, 65, 0x1c]) := by
  simp [mllpDrain, hasStart, hasEnd, idxStart, endIdx, pySlice]
-- noise containing the end pair before the start marker yields an extra empty payload
example : mllpDrain ([0x1c, 0x0d] ++ mllpEncode [65]) = ([[], [65]], []) := by
  simp [mllpDrain, mllpEncode, hasStart, hasEnd, idxStart, endIdx, pySlice, MLLP_START,
    MLLP_END]
-- one extra empty payload per end-marker pair in the noise
example : mllpDrain ([0x1c, 0x0d, 0x1c, 0x0d] ++ mllpEncode [65]) = ([[], [], [65]], []) := by
  simp [mllpDrain, mllpEncode, hasStart, hasEnd, idxStart, endIdx, pySlice, MLLP_START,
    MLLP_END]
-- two frames in one buffer
example : mllpDrain (mllpEncode [65] ++ mllpEncode [66]) = ([[65], [66]], []) := by
  simp [mllpDrain, mllpEncode, hasStart, hasEnd, idxStart, endIdx, pySlice, MLLP_START,
    MLLP_END]

open PyStr in
example : utf8DecodeReplace [0x41, 0x42] = ['A', 'B'] := by decide

open PyStr in
example : utf8Encode "é".data = [0xc3, 0xa9] := by decide

open PyStr in
example : utf8DecodeReplace [0xc3, 0xa9] = ['é'] := by decide

-- lone invalid byte → one replacement char
open PyStr in
example : utf8DecodeReplace [0xff] = [replChar] := by decide

-- CPython: b'\xe0\x80' → two U+FFFD, b'\xe0\xa0' (truncated) → one
open PyStr in
example : utf8DecodeReplace [0xe0, 0x80] = [replChar, replChar] := by decide
open PyStr in
example : utf8DecodeReplace [0xe0, 0xa0] = [replChar] := by decide

-- surrogate D800 encoded: ED A0 80 → three U+FFFD
open PyStr in
example : utf8DecodeReplace [0xed, 0xa0, 0x80] = [replChar, replChar, replChar] := by decide

-- 4-byte: U+1F600
open PyStr in
example : utf8DecodeReplace [0xf0, 0x9f, 0x98, 0x80] = [Char.ofNat 0x1f600] := by decide

open Server PyStr in
example :
    ctrl_fields "MSH|^~\\&|EHR|HOSP|REV|INT|20240101||MDM^T02|MSG001|P|2.5".data =
      ⟨"EHR".data, "HOSP".data, "REV".data, "INT".data, "MSG001".data⟩ := by decide

open Server in
example : ctrl_fields "MSH|only|three".data =
    ⟨"UNKNOWN".data, "UNKNOWN".data, "BILLING".data, "HOSPITAL".data, "0".data⟩ := by decide

open Server in
example :
    (extract_message_info "MSH|^~\\&|EHR|HOSP|REV|INT|20240101||MDM^T02|MSG001|P|2.5".data).message_type =
      "MDM^T02".data := by decide

end Sanity

/-! ## Framing lemmas -/

namespace MLLP

theorem mllpEncode_length (p : List Nat) : (mllpEncode p).length = p.length + 3 := by
  simp [mllpEncode, MLLP_END]

theorem mllpEncode_append (p t : List Nat) :
    mllpEncode p ++ t = 0x0b :: (p ++ 0x1c :: 0x0d :: t) := by
  simp [mllpEncode, MLLP_START, MLLP_END]

theorem hasEnd_pair (t : List Nat) : hasEnd (0x1c :: 0x0d :: t) = true := by
  simp [hasEnd]

theorem hasEnd_cons_pair {a b : Nat} {l : List Nat} (h : ¬(a = 0x1c ∧ b = 0x0d)) :
    hasEnd (a :: b :: l) = hasEnd (b :: l) := by
  cases hab : (a == 0x1c && b == 0x0d) with
  | false => simp [hasEnd, hab]
  | true =>
    exfalso
    simp only [Bool.and_eq_true, beq_iff_eq] at hab
    exact h hab

theorem hasEnd_mono (x l : List Nat) (h : hasEnd l = true) : hasEnd (x ++ l) = true := by
  induction x with
  | nil => simpa
  | cons a x' ih =>
    have h2 : 2 ≤ l.length := hasEnd_length h
    cases hx : x' ++ l with
    | nil =>
      rcases List.append_eq_nil.mp hx with ⟨-, rfl⟩
      simp at h2
    | cons b m =>
      have : hasEnd (b :: m) = true := hx ▸ ih
      show hasEnd (a :: x' ++ l) = true
      rw [List.cons_append, hx]
      cases hab : (a == 0x1c && b == 0x0d) with
      | true => simp [hasEnd, hab]
      | false => simp [hasEnd, hab, this]

theorem endIdx_pair (t : List Nat) : endIdx (0x1c :: 0x0d :: t) = 0 := by
  simp [endIdx]

theorem endIdx_cons_ne {a b : Nat} (l : List Nat) (h : ¬(a = 0x1c ∧ b = 0x0d)) :
    endIdx (a :: b :: l) = endIdx (b :: l) + 1 := by
  simp [endIdx, h]

theorem hasEnd_cons_false {a b : Nat} {l : List Nat} (h : hasEnd (a :: b :: l) = false) :
    ¬(a = 0x1c ∧ b = 0x0d) ∧ hasEnd (b :: l) = false := by
  simp only [hasEnd, Bool.or_eq_false_iff, Bool.and_eq_false_iff] at h
  refine ⟨?_, h.2⟩
  rintro ⟨rfl, rfl⟩
  rcases h.1 with h1 | h1 <;> simp at h1

theorem endIdx_frame (p t : List Nat) (hp : hasEnd p = false) :
    endIdx (p ++ 0x1c :: 0x0d :: t) = p.length := by
  induction p with
  | nil => simp [endIdx_pair]
  | cons a p' ih =>
    cases p' with
    | nil =>
      rw [List.cons_append, List.nil_append, endIdx_cons_ne _ (by omega), endIdx_pair]
      simp
    | cons b p'' =>
      obtain ⟨hab, htail⟩ := hasEnd_cons_false hp
      rw [List.cons_append, List.cons_append, endIdx_cons_ne _ hab]
      have := ih htail
      rw [List.cons_append] at this
      simp only [List.length_cons] at this ⊢
      omega

theorem endIdx_frame_start (p t : List Nat) (hp : hasEnd p = false) :
    endIdx (0x0b :: (p ++ 0x1c :: 0x0d :: t)) = p.length + 1 := by
  cases p with
  | nil =>
    rw [List.nil_append, endIdx_cons_ne _ (by omega), endIdx_pair]
    simp
  | cons a p' =>
    rw [List.cons_append, endIdx_cons_ne _ (by omega), ← List.cons_append,
      endIdx_frame _ _ hp]

theorem endIdx_noise (noise : List Nat) (a : Nat) (l : List Nat)
    (hn : hasEnd noise = false) (ha : a ≠ 0x0d) :
    endIdx (noise ++ a :: l) = noise.length + endIdx (a :: l) := by
  induction noise with
  | nil => simp
  | cons x n' ih =>
    cases n' with
    | nil =>
      rw [List.cons_append, List.nil_append, endIdx_cons_ne _ (by tauto)]
      simp [Nat.add_comm]
    | cons y n'' =>
      obtain ⟨hxy, htail⟩ := hasEnd_cons_false hn
      rw [List.cons_append, List.cons_append, endIdx_cons_ne _ hxy]
      have := ih htail
      rw [List.cons_append] at this
      simp [this]
      omega

theorem idxStart_start (l : List Nat) : idxStart (0x0b :: l) = 0 := by
  simp [idxStart]

theorem idxStart_noise (noise l : List Nat) (hn : noise.contains 0x0b = false) :
    idxStart (noise ++ l) = noise.length + idxStart l := by
  induction noise with
  | nil => simp
  | cons x n' ih =>
    have hx : ¬x = 0x0b := by
      intro hx
      subst hx
      simp [List.contains_cons] at hn
    have htail : n'.contains 0x0b = false := by
      simp [List.contains_cons] at hn
      simp [hn]
    rw [List.cons_append]
    simp only [idxStart, if_neg hx, ih htail, List.length_cons]
    omega

theorem hasStart_of_mem {buf : List Nat} (h : 0x0b ∈ buf) : hasStart buf = true :=
  List.elem_iff.mpr h

end MLLP

namespace MLLP

/-- One iteration of the drain loop on a buffer of the form
`noise ++ frame(p) ++ t`, where the noise contains no start marker and no
end-marker pair and the payload contains no end-marker pair: the frame for
`p` is consumed, `p` is extracted, and the loop continues on `t`. -/
theorem mllpDrain_step (noise p t : List Nat) (hn : hasEnd noise = false)
    (hs : noise.contains 0x0b = false) (hp : hasEnd p = false) :
    mllpDrain (noise ++ (mllpEncode p ++ t)) =
      (p :: (mllpDrain t).1, (mllpDrain t).2) := by
  rw [mllpEncode_append]
  have hstart : hasStart (noise ++ 0x0b :: (p ++ 0x1c :: 0x0d :: t)) = true :=
    hasStart_of_mem (by simp)
  have hend : hasEnd (noise ++ 0x0b :: (p ++ 0x1c :: 0x0d :: t)) = true := by
    have h1 : noise ++ 0x0b :: (p ++ 0x1c :: 0x0d :: t) =
        (noise ++ 0x0b :: p) ++ 0x1c :: 0x0d :: t := by simp
    rw [h1]
    exact hasEnd_mono _ _ (hasEnd_pair t)
  have hidx : idxStart (noise ++ 0x0b :: (p ++ 0x1c :: 0x0d :: t)) = noise.length := by
    rw [idxStart_noise _ _ hs, idxStart_start]
    omega
  have hendidx : endIdx (noise ++ 0x0b :: (p ++ 0x1c :: 0x0d :: t)) =
      noise.length + (p.length + 1) := by
    rw [endIdx_noise _ _ _ hn (by omega), endIdx_frame_start _ _ hp]
  have hmsg : pySlice (noise ++ 0x0b :: (p ++ 0x1c :: 0x0d :: t)) noise.length
      (noise.length + (p.length + 1) + 2) = mllpEncode p := by
    unfold pySlice
    rw [List.drop_left]
    have h2 : noise.length + (p.length + 1) + 2 - noise.length = (p.length + 2) + 1 := by
      omega
    rw [h2, List.take_succ_cons]
    have h3 : p ++ 0x1c :: 0x0d :: t = (p ++ [0x1c, 0x0d]) ++ t := by simp
    rw [h3, List.take_left' (by simp)]
    simp [mllpEncode, MLLP_START, MLLP_END]
  have hrest : (noise ++ 0x0b :: (p ++ 0x1c :: 0x0d :: t)).drop
      (noise.length + (p.length + 1) + 2) = t := by
    have h4 : noise ++ 0x0b :: (p ++ 0x1c :: 0x0d :: t) =
        (noise ++ 0x0b :: (p ++ [0x1c, 0x0d])) ++ t := by simp
    rw [h4, List.drop_left' (by simp; omega)]
  have hpay : ((mllpEncode p).drop 1).take ((mllpEncode p).length - 3) = p := by
    rw [mllpEncode_length]
    have h5 : (mllpEncode p).drop 1 = p ++ [0x1c, 0x0d] := by
      simp [mllpEncode, MLLP_START, MLLP_END]
    rw [h5]
    have h6 : p.length + 3 - 3 = p.length := by omega
    rw [h6, List.take_left' rfl]
  rw [mllpDrain, dif_pos ⟨hstart, hend⟩]
  simp only [hidx, hendidx, hmsg, hrest, hpay]

theorem mllpDrain_no_end {buf : List Nat} (h : hasEnd buf = false) :
    mllpDrain buf = ([], buf) := by
  rw [mllpDrain, dif_neg]
  rintro ⟨-, h2⟩
  rw [h] at h2
  exact Bool.false_ne_true h2

theorem mllpDrain_nil : mllpDrain [] = ([], []) :=
  mllpDrain_no_end rfl

/-- Drain of a single well-formed frame preceded by marker-free noise. -/
theorem mllpDrain_noise_encode (noise p : List Nat) (hn : hasEnd noise = false)
    (hs : noise.contains 0x0b = false) (hp : hasEnd p = false) :
    mllpDrain (noise ++ mllpEncode p) = ([p], []) := by
  have h := mllpDrain_step noise p [] hn hs hp
  rw [List.append_nil] at h
  rw [h, mllpDrain_nil]

/-- Drain of a single well-formed frame. -/
theorem mllpDrain_encode (p : List Nat) (hp : hasEnd p = false) :
    mllpDrain (mllpEncode p) = ([p], []) := by
  have h := mllpDrain_noise_encode [] p rfl rfl hp
  rwa [List.nil_append] at h

/-- Drain of two concatenated frames. -/
theorem mllpDrain_two (p1 p2 : List Nat) (h1 : hasEnd p1 = false)
    (h2 : hasEnd p2 = false) :
    mllpDrain (mllpEncode p1 ++ mllpEncode p2) = ([p1, p2], []) := by
  have hstep := mllpDrain_step [] p1 (mllpEncode p2) rfl rfl h1
  rw [List.nil_append] at hstep
  rw [hstep, mllpDrain_encode p2 h2]

theorem hasEnd_take {l : List Nat} {k : Nat} (h : hasEnd (l.take k) = true) :
    hasEnd l = true := by
  induction l generalizing k with
  | nil => simpa using h
  | cons a l' ih =>
    cases k with
    | zero => simp [hasEnd] at h
    | succ k' =>
      rw [List.take_succ_cons] at h
      cases l' with
      | nil => simp [hasEnd] at h
      | cons b l'' =>
        cases k' with
        | zero => simp [hasEnd] at h
        | succ k'' =>
          rw [List.take_succ_cons] at h
          cases hab : (a == 0x1c && b == 0x0d) with
          | true => simp [hasEnd, hab]
          | false =>
            rw [show hasEnd (a :: b :: l''.take k'') =
                ((a == 0x1c && b == 0x0d) || hasEnd (b :: l''.take k'')) from rfl,
              hab, Bool.false_or] at h
            have := ih (k := k'' + 1) (by rwa [List.take_succ_cons])
            rw [show hasEnd (a :: b :: l'') =
                ((a == 0x1c && b == 0x0d) || hasEnd (b :: l'')) from rfl, hab,
              Bool.false_or]
            exact this

theorem hasEnd_take_false {l : List Nat} (k : Nat) (h : hasEnd l = false) :
    hasEnd (l.take k) = false := by
  cases h2 : hasEnd (l.take k) with
  | false => rfl
  | true => exact absurd (hasEnd_take h2) (by simp [h])

theorem hasEnd_snoc_fs {p : List Nat} (hp : hasEnd p = false) :
    hasEnd (p ++ [0x1c]) = false := by
  induction p with
  | nil => simp [hasEnd]
  | cons a p' ih =>
    cases p' with
    | nil => simp [hasEnd]
    | cons b p'' =>
      obtain ⟨hab, htail⟩ := hasEnd_cons_false hp
      rw [List.cons_append, List.cons_append, hasEnd_cons_pair hab, ← List.cons_append]
      exact ih htail

/-- A proper prefix of a frame whose payload has no end-marker pair has no
end-marker pair: the end marker is atomic and the frame ends with it. -/
theorem hasEnd_frame_take {p : List Nat} (k : Nat) (hk : k ≤ p.length + 2)
    (hp : hasEnd p = false) : hasEnd ((mllpEncode p).take k) = false := by
  have hsplit : mllpEncode p = (0x0b :: (p ++ [0x1c])) ++ [0x0d] := by
    simp [mllpEncode, MLLP_START, MLLP_END]
  rw [hsplit, List.take_append_of_le_length (by simp; omega)]
  apply hasEnd_take_false
  cases p with
  | nil => simp [hasEnd]
  | cons a p' =>
    rw [List.cons_append, hasEnd_cons_pair (by omega), ← List.cons_append]
    exact hasEnd_snoc_fs hp

end MLLP

namespace MLLP

/-- The index and slice computations the drain loop performs on a buffer of
the form `noise ++ frame(p) ++ t`, bundled for reuse. -/
theorem frame_facts (noise p t : List Nat) (hn : hasEnd noise = false)
    (hs : noise.contains 0x0b = false) (hp : hasEnd p = false) :
    hasStart (noise ++ 0x0b :: (p ++ 0x1c :: 0x0d :: t)) = true ∧
    hasEnd (noise ++ 0x0b :: (p ++ 0x1c :: 0x0d :: t)) = true ∧
    idxStart (noise ++ 0x0b :: (p ++ 0x1c :: 0x0d :: t)) = noise.length ∧
    endIdx (noise ++ 0x0b :: (p ++ 0x1c :: 0x0d :: t)) = noise.length + (p.length + 1) ∧
    pySlice (noise ++ 0x0b :: (p ++ 0x1c :: 0x0d :: t)) noise.length
      (noise.length + (p.length + 1) + 2) = mllpEncode p ∧
    (noise ++ 0x0b :: (p ++ 0x1c :: 0x0d :: t)).drop
      (noise.length + (p.length + 1) + 2) = t := by
  refine ⟨hasStart_of_mem (by simp), ?_, ?_, ?_, ?_, ?_⟩
  · have h1 : noise ++ 0x0b :: (p ++ 0x1c :: 0x0d :: t) =
        (noise ++ 0x0b :: p) ++ 0x1c :: 0x0d :: t := by simp
    rw [h1]
    exact hasEnd_mono _ _ (hasEnd_pair t)
  · rw [idxStart_noise _ _ hs, idxStart_start]
    omega
  · rw [endIdx_noise _ _ _ hn (by omega), endIdx_frame_start _ _ hp]
  · unfold pySlice
    rw [List.drop_left]
    have h2 : noise.length + (p.length + 1) + 2 - noise.length = (p.length + 2) + 1 := by
      omega
    rw [h2, List.take_succ_cons]
    have h3 : p ++ 0x1c :: 0x0d :: t = (p ++ [0x1c, 0x0d]) ++ t := by simp
    rw [h3, List.take_left' (by simp)]
    simp [mllpEncode, MLLP_START, MLLP_END]
  · have h4 : noise ++ 0x0b :: (p ++ 0x1c :: 0x0d :: t) =
        (noise ++ 0x0b :: (p ++ [0x1c, 0x0d])) ++ t := by simp
    rw [h4, List.drop_left' (by simp; omega)]

theorem mllp_payload (p : List Nat) :
    ((mllpEncode p).drop 1).take ((mllpEncode p).length - 3) = p := by
  rw [mllpEncode_length]
  have h5 : (mllpEncode p).drop 1 = p ++ [0x1c, 0x0d] := by
    simp [mllpEncode, MLLP_START, MLLP_END]
  rw [h5]
  have h6 : p.length + 3 - 3 = p.length := by omega
  rw [h6, List.take_left' rfl]

end MLLP

namespace Server

open MLLP PyStr

theorem drainEvents_no_end (storeOk : List Char → Bool) (ts : Nat → List Char) (k : Nat)
    {buf : List Nat} (h : hasEnd buf = false) :
    drainEvents storeOk ts k buf = ([], buf, false) := by
  rw [drainEvents, dif_neg]
  rintro ⟨-, h2⟩
  rw [h] at h2
  exact Bool.false_ne_true h2

theorem drainEvents_nil (storeOk : List Char → Bool) (ts : Nat → List Char) (k : Nat) :
    drainEvents storeOk ts k [] = ([], [], false) :=
  drainEvents_no_end storeOk ts k rfl

/-- One iteration of the receiver loop when `save_message` succeeds: the
payload is stored, the ACK is sent, and the loop continues on the tail. -/
theorem drainEvents_step_ok (storeOk : List Char → Bool) (ts : Nat → List Char) (k : Nat)
    (noise p t : List Nat) (hn : hasEnd noise = false)
    (hs : noise.contains 0x0b = false) (hp : hasEnd p = false)
    (hok : storeOk (utf8DecodeReplace p) = true) :
    drainEvents storeOk ts k (noise ++ (mllpEncode p ++ t)) =
      (Event.stored (utf8DecodeReplace p) ::
        Event.acked (create_ack (ts k) (utf8DecodeReplace p)) ::
          (drainEvents storeOk ts (k + 1) t).1,
        (drainEvents storeOk ts (k + 1) t).2) := by
  rw [mllpEncode_append]
  obtain ⟨h1, h2, h3, h4, h5, h6⟩ := frame_facts noise p t hn hs hp
  rw [drainEvents, dif_pos ⟨h1, h2⟩]
  simp only [h3, h4, h5, h6, mllp_payload, hok, if_pos]

/-- One iteration of the receiver loop when `save_message` raises: the
exception escapes both `while` loops, so no ACK is sent for the payload,
the rest of the buffer is never drained, and the session is closed. -/
theorem drainEvents_step_fail (storeOk : List Char → Bool) (ts : Nat → List Char)
    (k : Nat) (noise p t : List Nat) (hn : hasEnd noise = false)
    (hs : noise.contains 0x0b = false) (hp : hasEnd p = false)
    (hok : storeOk (utf8DecodeReplace p) = false) :
    drainEvents storeOk ts k (noise ++ (mllpEncode p ++ t)) =
      ([Event.storeFailed (utf8DecodeReplace p)], t, true) := by
  rw [mllpEncode_append]
  obtain ⟨h1, h2, h3, h4, h5, h6⟩ := frame_facts noise p t hn hs hp
  rw [drainEvents, dif_pos ⟨h1, h2⟩]
  simp only [h3, h4, h5, h6, mllp_payload, hok, if_neg, Bool.false_eq_true,
    not_false_eq_true]

end Server

/-! ## UTF-8 codec lemmas -/

namespace PyStr

theorem char_valid_nat (c : Char) :
    c.toNat < 0xd800 ∨ (0xdfff < c.toNat ∧ c.toNat < 0x110000) := by
  have h := c.valid
  unfold UInt32.isValidChar at h
  unfold Nat.isValidChar at h
  exact h

set_option maxRecDepth 10000 in
/-- Decoding the UTF-8 encoding of one character consumes exactly its bytes
and yields exactly that character. -/
theorem decode_encodeChar (c : Char) (rest : List Nat) :
    utf8DecodeReplace (utf8EncodeChar c ++ rest) = c :: utf8DecodeReplace rest := by
  have hval := char_valid_nat c
  simp only [utf8EncodeChar]
  rcases Nat.lt_or_ge c.toNat 0x80 with h1 | h1
  · rw [if_pos h1, List.cons_append, List.nil_append, utf8DecodeReplace.eq_def]
    simp only [if_pos h1, Char.ofNat_toNat]
  · rcases Nat.lt_or_ge c.toNat 0x800 with h2 | h2
    · rw [if_neg (by omega), if_pos h2, List.cons_append, List.cons_append,
        List.nil_append, utf8DecodeReplace.eq_def]
      have c1 : ¬(0xc0 + c.toNat / 64 < 0x80) := by omega
      have c2 : ¬(0xc0 + c.toNat / 64 < 0xc2) := by omega
      have c3 : 0xc0 + c.toNat / 64 < 0xe0 := by omega
      have c4 : 0x80 ≤ 0x80 + c.toNat % 64 ∧ 0x80 + c.toNat % 64 < 0xc0 := by omega
      simp only [if_neg c1, if_neg c2, if_pos c3, if_pos c4]
      have hv : (0xc0 + c.toNat / 64 - 0xc0) * 64 + (0x80 + c.toNat % 64 - 0x80) =
          c.toNat := by omega
      rw [hv, Char.ofNat_toNat]
    · rcases Nat.lt_or_ge c.toNat 0x10000 with h3 | h3
      · rw [if_neg (by omega), if_neg (by omega), if_pos h3, List.cons_append,
          List.cons_append, List.cons_append, List.nil_append,
          utf8DecodeReplace.eq_def]
        have c1 : ¬(0xe0 + c.toNat / 4096 < 0x80) := by omega
        have c2 : ¬(0xe0 + c.toNat / 4096 < 0xc2) := by omega
        have c3 : ¬(0xe0 + c.toNat / 4096 < 0xe0) := by omega
        have c4 : 0xe0 + c.toNat / 4096 < 0xf0 := by omega
        have c5 : (if 0xe0 + c.toNat / 4096 = 0xe0 then 0xa0 else 0x80) ≤
            0x80 + c.toNat / 64 % 64 ∧
            0x80 + c.toNat / 64 % 64 <
              (if 0xe0 + c.toNat / 4096 = 0xed then 0xa0 else 0xc0) := by
          split_ifs <;> omega
        have c6 : 0x80 ≤ 0x80 + c.toNat % 64 ∧ 0x80 + c.toNat % 64 < 0xc0 := by omega
        simp only [if_neg c1, if_neg c2, if_neg c3, if_pos c4, if_pos c5, if_pos c6]
        have hv : (0xe0 + c.toNat / 4096 - 0xe0) * 4096 +
            (0x80 + c.toNat / 64 % 64 - 0x80) * 64 + (0x80 + c.toNat % 64 - 0x80) =
            c.toNat := by omega
        rw [hv, Char.ofNat_toNat]
      · rw [if_neg (by omega), if_neg (by omega), if_neg (by omega), List.cons_append,
          List.cons_append, List.cons_append, List.cons_append, List.nil_append,
          utf8DecodeReplace.eq_def]
        have c1 : ¬(0xf0 + c.toNat / 262144 < 0x80) := by omega
        have c2 : ¬(0xf0 + c.toNat / 262144 < 0xc2) := by omega
        have c3 : ¬(0xf0 + c.toNat / 262144 < 0xe0) := by omega
        have c4 : ¬(0xf0 + c.toNat / 262144 < 0xf0) := by omega
        have c5 : 0xf0 + c.toNat / 262144 < 0xf5 := by omega
        have c6 : (if 0xf0 + c.toNat / 262144 = 0xf0 then 0x90 else 0x80) ≤
            0x80 + c.toNat / 4096 % 64 ∧
            0x80 + c.toNat / 4096 % 64 <
              (if 0xf0 + c.toNat / 262144 = 0xf4 then 0x90 else 0xc0) := by
          split_ifs <;> omega
        have c7 : 0x80 ≤ 0x80 + c.toNat / 64 % 64 ∧ 0x80 + c.toNat / 64 % 64 < 0xc0 := by
          omega
        have c8 : 0x80 ≤ 0x80 + c.toNat % 64 ∧ 0x80 + c.toNat % 64 < 0xc0 := by omega
        simp only [if_neg c1, if_neg c2, if_neg c3, if_neg c4, if_pos c5, if_pos c6,
          if_pos c7, if_pos c8]
        have hv : (0xf0 + c.toNat / 262144 - 0xf0) * 262144 +
            (0x80 + c.toNat / 4096 % 64 - 0x80) * 4096 +
            (0x80 + c.toNat / 64 % 64 - 0x80) * 64 + (0x80 + c.toNat % 64 - 0x80) =
            c.toNat := by omega
        rw [hv, Char.ofNat_toNat]

/-- Python: `s.encode().decode('utf-8', errors='replace') == s` — decoding
with replacement is exact on well-formed UTF-8. -/
theorem decode_encode (s : List Char) : utf8DecodeReplace (utf8Encode s) = s := by
  induction s with
  | nil => rfl
  | cons c cs ih => rw [utf8Encode, decode_encodeChar, ih]

end PyStr

namespace PyStr

theorem toNat_ofNat_valid (n : Nat) (h : n.isValidChar) : (Char.ofNat n).toNat = n := by
  unfold Char.ofNat
  rw [dif_pos h]
  unfold Char.ofNatAux
  simp [Char.toNat, UInt32.toNat, BitVec.toNat_ofNatLt]

theorem encodeChar_ofNat_1 (b : Nat) (h : b < 0x80) :
    utf8EncodeChar (Char.ofNat b) = [b] := by
  have hval : b.isValidChar := by
    unfold Nat.isValidChar
    omega
  simp only [utf8EncodeChar, toNat_ofNat_valid _ hval]
  rw [if_pos h]

theorem encodeChar_ofNat_2 (b b1 : Nat) (hb : 0xc2 ≤ b) (hb' : b < 0xe0)
    (h1 : 0x80 ≤ b1) (h1' : b1 < 0xc0) :
    utf8EncodeChar (Char.ofNat ((b - 0xc0) * 64 + (b1 - 0x80))) = [b, b1] := by
  have hval : ((b - 0xc0) * 64 + (b1 - 0x80)).isValidChar := by
    unfold Nat.isValidChar
    omega
  simp only [utf8EncodeChar, toNat_ofNat_valid _ hval]
  rw [if_neg (by omega), if_pos (by omega)]
  simp only [List.cons.injEq, and_true]
  omega

theorem encodeChar_ofNat_3 (b b1 b2 : Nat) (hb : 0xe0 ≤ b) (hb' : b < 0xf0)
    (hc : (if b = 0xe0 then 0xa0 else 0x80) ≤ b1 ∧
      b1 < (if b = 0xed then 0xa0 else 0xc0))
    (h2 : 0x80 ≤ b2) (h2' : b2 < 0xc0) :
    utf8EncodeChar (Char.ofNat ((b - 0xe0) * 4096 + (b1 - 0x80) * 64 + (b2 - 0x80))) =
      [b, b1, b2] := by
  have hval : ((b - 0xe0) * 4096 + (b1 - 0x80) * 64 + (b2 - 0x80)).isValidChar := by
    unfold Nat.isValidChar
    split_ifs at hc <;> omega
  simp only [utf8EncodeChar, toNat_ofNat_valid _ hval]
  rw [if_neg (by split_ifs at hc <;> omega), if_neg (by split_ifs at hc <;> omega),
    if_pos (by split_ifs at hc <;> omega)]
  simp only [List.cons.injEq, and_true]
  split_ifs at hc <;> omega

theorem encodeChar_ofNat_4 (b b1 b2 b3 : Nat) (hb : 0xf0 ≤ b) (hb' : b < 0xf5)
    (hc : (if b = 0xf0 then 0x90 else 0x80) ≤ b1 ∧
      b1 < (if b = 0xf4 then 0x90 else 0xc0))
    (h2 : 0x80 ≤ b2) (h2' : b2 < 0xc0) (h3 : 0x80 ≤ b3) (h3' : b3 < 0xc0) :
    utf8EncodeChar (Char.ofNat
      ((b - 0xf0) * 262144 + (b1 - 0x80) * 4096 + (b2 - 0x80) * 64 + (b3 - 0x80))) =
      [b, b1, b2, b3] := by
  have hval :
      ((b - 0xf0) * 262144 + (b1 - 0x80) * 4096 + (b2 - 0x80) * 64 +
        (b3 - 0x80)).isValidChar := by
    unfold Nat.isValidChar
    split_ifs at hc <;> omega
  simp only [utf8EncodeChar, toNat_ofNat_valid _ hval]
  rw [if_neg (by split_ifs at hc <;> omega), if_neg (by split_ifs at hc <;> omega),
    if_neg (by split_ifs at hc <;> omega)]
  simp only [List.cons.injEq, and_true]
  split_ifs at hc <;> omega

end PyStr

namespace PyStr

set_option maxRecDepth 10000 in
theorem encode_decode_bounded (N : Nat) : ∀ (bs : List Nat), bs.length ≤ N →
    utf8Encode (utf8DecodeReplace bs) = bs ∨ replChar ∈ utf8DecodeReplace bs := by
  induction N with
  | zero =>
    intro bs h
    rw [List.length_eq_zero.mp (Nat.le_zero.mp h)]
    left
    rfl
  | succ N ih =>
    intro bs hlen
    cases bs with
    | nil => left; rfl
    | cons b rest =>
      simp only [List.length_cons] at hlen
      rw [utf8DecodeReplace.eq_def]
      rcases Nat.lt_or_ge b 0x80 with h1 | h1
      · simp only [if_pos h1]
        rcases ih rest (by omega) with he | hm
        · left
          rw [utf8Encode, he, encodeChar_ofNat_1 b h1, List.cons_append,
            List.nil_append]
        · right
          exact List.mem_cons_of_mem _ hm
      · rcases Nat.lt_or_ge b 0xc2 with h2 | h2
        · simp only [if_neg (by omega : ¬b < 0x80), if_pos h2]
          right
          exact List.mem_cons_self _ _
        · rcases Nat.lt_or_ge b 0xe0 with h3 | h3
          · simp only [if_neg (by omega : ¬b < 0x80), if_neg (by omega : ¬b < 0xc2),
              if_pos h3]
            cases rest with
            | nil => right; simp
            | cons b1 r1 =>
              simp only [List.length_cons] at hlen
              by_cases hc : 0x80 ≤ b1 ∧ b1 < 0xc0
              · simp only [if_pos hc]
                rcases ih r1 (by omega) with he | hm
                · left
                  rw [utf8Encode, he, encodeChar_ofNat_2 b b1 h2 h3 hc.1 hc.2,
                    List.cons_append, List.cons_append, List.nil_append]
                · right
                  exact List.mem_cons_of_mem _ hm
              · simp only [if_neg hc]
                right
                exact List.mem_cons_self _ _
          · rcases Nat.lt_or_ge b 0xf0 with h4 | h4
            · simp only [if_neg (by omega : ¬b < 0x80), if_neg (by omega : ¬b < 0xc2),
                if_neg (by omega : ¬b < 0xe0), if_pos h4]
              cases rest with
              | nil => right; simp
              | cons b1 r1 =>
                simp only [List.length_cons] at hlen
                by_cases hc : (if b = 0xe0 then 0xa0 else 0x80) ≤ b1 ∧
                    b1 < (if b = 0xed then 0xa0 else 0xc0)
                · simp only [if_pos hc]
                  cases r1 with
                  | nil => right; simp
                  | cons b2 r2 =>
                    simp only [List.length_cons] at hlen
                    by_cases hc2 : 0x80 ≤ b2 ∧ b2 < 0xc0
                    · simp only [if_pos hc2]
                      rcases ih r2 (by omega) with he | hm
                      · left
                        rw [utf8Encode, he,
                          encodeChar_ofNat_3 b b1 b2 h3 h4 hc hc2.1 hc2.2,
                          List.cons_append, List.cons_append, List.cons_append,
                          List.nil_append]
                      · right
                        exact List.mem_cons_of_mem _ hm
                    · simp only [if_neg hc2]
                      right
                      exact List.mem_cons_self _ _
                · simp only [if_neg hc]
                  right
                  exact List.mem_cons_self _ _
            · rcases Nat.lt_or_ge b 0xf5 with h5 | h5
              · simp only [if_neg (by omega : ¬b < 0x80),
                  if_neg (by omega : ¬b < 0xc2), if_neg (by omega : ¬b < 0xe0),
                  if_neg (by omega : ¬b < 0xf0), if_pos h5]
                cases rest with
                | nil => right; simp
                | cons b1 r1 =>
                  simp only [List.length_cons] at hlen
                  by_cases hc : (if b = 0xf0 then 0x90 else 0x80) ≤ b1 ∧
                      b1 < (if b = 0xf4 then 0x90 else 0xc0)
                  · simp only [if_pos hc]
                    cases r1 with
                    | nil => right; simp
                    | cons b2 r2 =>
                      simp only [List.length_cons] at hlen
                      by_cases hc2 : 0x80 ≤ b2 ∧ b2 < 0xc0
                      · simp only [if_pos hc2]
                        cases r2 with
                        | nil => right; simp
                        | cons b3 r3 =>
                          simp only [List.length_cons] at hlen
                          by_cases hc3 : 0x80 ≤ b3 ∧ b3 < 0xc0
                          · simp only [if_pos hc3]
                            rcases ih r3 (by omega) with he | hm
                            · left
                              rw [utf8Encode, he,
                                encodeChar_ofNat_4 b b1 b2 b3 h4 h5 hc hc2.1 hc2.2
                                  hc3.1 hc3.2,
                                List.cons_append, List.cons_append, List.cons_append,
                                List.cons_append, List.nil_append]
                            · right
                              exact List.mem_cons_of_mem _ hm
                          · simp only [if_neg hc3]
                            right
                            exact List.mem_cons_self _ _
                      · simp only [if_neg hc2]
                        right
                        exact List.mem_cons_self _ _
                  · simp only [if_neg hc]
                    right
                    exact List.mem_cons_self _ _
              · simp only [if_neg (by omega : ¬b < 0x80),
                  if_neg (by omega : ¬b < 0xc2), if_neg (by omega : ¬b < 0xe0),
                  if_neg (by omega : ¬b < 0xf0), if_neg (by omega : ¬b < 0xf5)]
                right
                exact List.mem_cons_self _ _

/-- Every byte list either decodes (with replacement) to a string that
re-encodes to exactly the original bytes, or its decoding contains U+FFFD:
ill-formed input is always marked by a replacement character, and only
ill-formed input loses bytes. -/
theorem encode_decode_or_repl (bs : List Nat) :
    utf8Encode (utf8DecodeReplace bs) = bs ∨ replChar ∈ utf8DecodeReplace bs :=
  encode_decode_bounded bs.length bs (Nat.le_refl _)

end PyStr

namespace MLLP

/-- A decode pass on a buffer whose first two bytes are the end-marker pair
consumes exactly those two bytes and emits one empty payload: the end index
is 0, so the extracted slice `buffer[start_idx:2]` is empty (the first start
marker lies at or after position 2), and the loop continues on the rest. -/
theorem mllpDrain_pair_skip (M : List Nat) (hstart : hasStart M = true) :
    mllpDrain (0x1c :: 0x0d :: M) = ([] :: (mllpDrain M).1, (mllpDrain M).2) := by
  have hmem : (0x0b : Nat) ∈ M := List.elem_iff.mp hstart
  have hstart2 : hasStart (0x1c :: 0x0d :: M) = true :=
    hasStart_of_mem (by simp [hmem])
  have hend2 : hasEnd (0x1c :: 0x0d :: M) = true := hasEnd_pair M
  rw [mllpDrain, dif_pos ⟨hstart2, hend2⟩]
  have hidx : idxStart (0x1c :: 0x0d :: M) = idxStart M + 2 := by
    simp [idxStart]
  have hendi : endIdx (0x1c :: 0x0d :: M) = 0 := endIdx_pair M
  simp only [hidx, hendi, pySlice, Nat.zero_add]
  have h0 : 2 - (idxStart M + 2) = 0 := by omega
  rw [h0, List.take_zero, List.drop_succ_cons, List.drop_succ_cons, List.drop_zero]
  simp

/-- A decode pass ignores a leading byte that is neither a start marker nor
the first byte of the buffer's first end-marker pair: the pass on `a :: M`
extracts the same payload and leaves the same remainder as the pass on `M`
alone, so the whole drain result is unchanged. -/
theorem mllpDrain_cons_skip (a b : Nat) (M : List Nat) (ha : a ≠ 0x0b)
    (hab : ¬(a = 0x1c ∧ b = 0x0d)) (hstart : hasStart (b :: M) = true)
    (hend : hasEnd (b :: M) = true) :
    mllpDrain (a :: b :: M) = mllpDrain (b :: M) := by
  have hmem : (0x0b : Nat) ∈ b :: M := List.elem_iff.mp hstart
  have hstart2 : hasStart (a :: b :: M) = true := hasStart_of_mem (by simp [hmem])
  have hend2 : hasEnd (a :: b :: M) = true := by
    rw [show hasEnd (a :: b :: M) = ((a == 0x1c && b == 0x0d) || hasEnd (b :: M))
      from rfl, hend, Bool.or_true]
  rw [mllpDrain, dif_pos ⟨hstart2, hend2⟩]
  conv_rhs => rw [mllpDrain, dif_pos ⟨hstart, hend⟩]
  have hidx : idxStart (a :: b :: M) = idxStart (b :: M) + 1 := by
    simp only [idxStart, if_neg ha]
  have hendi : endIdx (a :: b :: M) = endIdx (b :: M) + 1 := endIdx_cons_ne _ hab
  simp only [hidx, hendi, pySlice]
  have h1 : endIdx (b :: M) + 1 + 2 - (idxStart (b :: M) + 1) =
      endIdx (b :: M) + 2 - idxStart (b :: M) := by omega
  have h2 : endIdx (b :: M) + 1 + 2 = (endIdx (b :: M) + 2) + 1 := by omega
  rw [h1, h2, List.drop_succ_cons, List.drop_succ_cons]

/-- Drain of marker-free-noise-free … general noise form: a buffer
`noise ++ frame(p)` whose noise contains no start marker decodes to one
empty payload per end-marker pair in the noise (left to right,
non-overlapping), followed by `p`, with empty remainder. -/
theorem mllpDrain_noise_count_bounded (N : Nat) : ∀ noise p : List Nat,
    noise.length ≤ N → noise.contains 0x0b = false → hasEnd p = false →
    mllpDrain (noise ++ mllpEncode p) =
      (List.replicate (pairCount noise) [] ++ [p], []) := by
  induction N with
  | zero =>
    intro noise p hlen hs hp
    rw [List.length_eq_zero.mp (Nat.le_zero.mp hlen), List.nil_append,
      mllpDrain_encode p hp]
    rfl
  | succ N ih =>
    intro noise p hlen hs hp
    cases noise with
    | nil =>
      rw [List.nil_append, mllpDrain_encode p hp]
      rfl
    | cons x n' =>
      simp only [List.length_cons] at hlen
      cases n' with
      | nil =>
        rw [mllpDrain_noise_encode [x] p rfl hs hp]
        rfl
      | cons y rest =>
        simp only [List.length_cons] at hlen
        have hsx : x ≠ 0x0b := by
          simp [List.contains_cons] at hs
          tauto
        have hs' : (y :: rest).contains 0x0b = false := by
          simp [List.contains_cons] at hs ⊢
          tauto
        have hframe : hasEnd (mllpEncode p) = true := by
          rw [show mllpEncode p = (0x0b :: p) ++ [0x1c, 0x0d] from by
            simp [mllpEncode, MLLP_START, MLLP_END]]
          exact hasEnd_mono _ _ (hasEnd_pair [])
        by_cases hxy : x = 0x1c ∧ y = 0x0d
        · obtain ⟨rfl, rfl⟩ := hxy
          have hrest : rest.contains 0x0b = false := by
            simp [List.contains_cons] at hs'
            tauto
          rw [List.cons_append, List.cons_append,
            mllpDrain_pair_skip _ (hasStart_of_mem (by simp [mllpEncode, MLLP_START])),
            ih rest p (by omega) hrest hp]
          have hpc : pairCount (0x1c :: 0x0d :: rest) = pairCount rest + 1 := by
            simp [pairCount]
          rw [hpc, List.replicate_succ, List.cons_append]
        · have hstartM : hasStart (y :: (rest ++ mllpEncode p)) = true :=
            hasStart_of_mem (by simp [mllpEncode, MLLP_START])
          have hendM : hasEnd (y :: (rest ++ mllpEncode p)) = true := by
            rw [← List.cons_append]
            exact hasEnd_mono _ _ hframe
          rw [List.cons_append, List.cons_append,
            mllpDrain_cons_skip x y (rest ++ mllpEncode p) hsx hxy hstartM hendM,
            ← List.cons_append,
            ih (y :: rest) p (by simp only [List.length_cons]; omega) hs' hp]
          have hpc : pairCount (x :: y :: rest) = pairCount (y :: rest) := by
            simp only [pairCount, if_neg hxy]
          rw [hpc]

end MLLP

/-! ## Claim theorems -/

open MLLP PyStr Server Sender

/-- C1 — Round-trip framing: for every payload byte string `p` containing
neither the start-marker byte 0x0B nor the end-marker sequence 0x1C 0x0D,
decoding the buffer `encode(p) = 0x0B ++ p ++ 0x1C 0x0D` yields exactly the
one payload `p`, and the remaining buffer is empty. -/
theorem C1_roundtrip_framing (p : List Nat) (hstart : 0x0b ∉ p)
    (hend : hasEnd p = false) :
    mllpDrain (mllpEncode p) = ([p], []) :=
  mllpDrain_encode p hend

theorem C1_witness :
    (0x0b ∉ ([77, 83, 72, 124] : List Nat)) ∧ hasEnd [77, 83, 72, 124] = false ∧
      mllpDrain (mllpEncode [77, 83, 72, 124]) = ([[77, 83, 72, 124]], []) :=
  ⟨by decide, by decide, C1_roundtrip_framing [77, 83, 72, 124] (by decide) (by decide)⟩

/-- C2 (counterexample) — the claim "all bytes preceding the first start
marker … produce no extra decoded payload" and "the decoder locates the
first complete end-marker sequence occurring after it" is false: the server
searches `buffer.index(MLLP_END)` from the start of the buffer, so noise
`0x1C 0x0D` before the start marker is taken as the end of an empty frame
and an extra empty payload is decoded. -/
theorem C2_counterexample :
    mllpDrain ([0x1c, 0x0d] ++ mllpEncode [77]) = ([[], [77]], []) ∧
      ([[], [77]] : List (List Nat)) ≠ [[77]] := by
  constructor
  · simp [mllpDrain, mllpEncode, hasStart, hasEnd, idxStart, endIdx, pySlice,
      MLLP_START, MLLP_END]
  · decide

/-- C2 (amended) — on every decode pass the server locates the first start
marker and the first end-marker sequence **anywhere in the buffer** (not
necessarily after the start marker).  Bytes preceding the first start
marker never appear in any decoded payload: noise containing no end-marker
sequence is dropped and produces no extra payload, while noise that does
contain end-marker sequences produces exactly one extra **empty** decoded
payload per non-overlapping `0x1C 0x0D` pair it contains (counted left to
right), one per decode pass, before the real payload is decoded. -/
theorem C2_noise_tolerance (noise p : List Nat)
    (hs : noise.contains 0x0b = false) (hp : hasEnd p = false) :
    mllpDrain (noise ++ mllpEncode p) =
        (List.replicate (pairCount noise) [] ++ [p], []) ∧
      (hasEnd noise = false → mllpDrain (noise ++ mllpEncode p) = ([p], [])) :=
  ⟨mllpDrain_noise_count_bounded noise.length noise p (Nat.le_refl _) hs hp,
    fun hn => mllpDrain_noise_encode noise p hn hs hp⟩

theorem C2_witness :
    (([0x1c, 0x0d, 5, 0x1c, 0x0d] : List Nat).contains 0x0b = false ∧
        hasEnd [77] = false ∧ pairCount [0x1c, 0x0d, 5, 0x1c, 0x0d] = 2 ∧
        mllpDrain ([0x1c, 0x0d, 5, 0x1c, 0x0d] ++ mllpEncode [77]) =
          (List.replicate (pairCount [0x1c, 0x0d, 5, 0x1c, 0x0d]) [] ++ [[77]], [])) ∧
      (([1, 2] : List Nat).contains 0x0b = false ∧ hasEnd [1, 2] = false ∧
        mllpDrain ([1, 2] ++ mllpEncode [77]) = ([[77]], [])) :=
  ⟨⟨by decide, by decide, by decide,
      (C2_noise_tolerance [0x1c, 0x0d, 5, 0x1c, 0x0d] [77] (by decide) (by decide)).1⟩,
    ⟨by decide, by decide,
      (C2_noise_tolerance [1, 2] [77] (by decide) (by decide)).2 (by decide)⟩⟩

/-- C3 — Split-read reassembly with atomic end marker: for every payload `p`
(no marker bytes) and every split of `encode(p)` into two non-empty chunks,
the first chunk alone completes no frame (it yields no payload and is
retained in the buffer — in particular a buffer ending in a lone 0x1C is not
treated as terminated), and after the second chunk arrives the buffered
concatenation decodes to exactly `p` with empty remainder. -/
theorem C3_split_reassembly (p c1 c2 : List Nat) (hsplit : mllpEncode p = c1 ++ c2)
    (hc1 : c1 ≠ []) (hc2 : c2 ≠ []) (hstart : 0x0b ∉ p) (hend : hasEnd p = false) :
    mllpDrain c1 = ([], c1) ∧ mllpDrain (c1 ++ c2) = ([p], []) := by
  constructor
  · apply mllpDrain_no_end
    have hlen : c1.length ≤ p.length + 2 := by
      have hl := congrArg List.length hsplit
      rw [mllpEncode_length, List.length_append] at hl
      have : 0 < c2.length := List.length_pos.mpr hc2
      omega
    have hc1eq : c1 = (mllpEncode p).take c1.length := by
      rw [hsplit, List.take_left]
    rw [hc1eq]
    exact hasEnd_frame_take _ hlen hend
  · rw [← hsplit]
    exact mllpDrain_encode p hend

theorem C3_witness :
    mllpEncode [77, 83] = [0x0b, 77] ++ [83, 0x1c, 0x0d] ∧
      ([0x0b, 77] : List Nat) ≠ [] ∧ ([83, 0x1c, 0x0d] : List Nat) ≠ [] ∧
      (0x0b ∉ ([77, 83] : List Nat)) ∧ hasEnd [77, 83] = false ∧
      (mllpDrain [0x0b, 77] = ([], [0x0b, 77]) ∧
        mllpDrain ([0x0b, 77] ++ [83, 0x1c, 0x0d]) = ([[77, 83]], [])) :=
  ⟨by decide, by decide, by decide, by decide, by decide,
    C3_split_reassembly [77, 83] [0x0b, 77] [83, 0x1c, 0x0d] (by decide) (by decide)
      (by decide) (by decide) (by decide)⟩

/-- C5 — Acknowledgment identity: for every received payload whose first
carriage-return-separated line splits into at least 10 pipe-delimited fields
with sending app `A` (field 2), sending facility `B` (field 3), receiving
app `C` (field 4), receiving facility `D` (field 5) and control ID `M1`
(field 9), the synthesized ACK frame carries the routing fields swapped in
the order `C, D, A, B` in its MSH line, and its MSA status line echoes `M1`
with accept code `AA`. -/
theorem C5_ack_identity (ts msg A B C D M1 : List Char)
    (h10 : (first_line_fields msg).length ≥ 10)
    (hA : (first_line_fields msg).getD 2 [] = A)
    (hB : (first_line_fields msg).getD 3 [] = B)
    (hC : (first_line_fields msg).getD 4 [] = C)
    (hD : (first_line_fields msg).getD 5 [] = D)
    (hM : (first_line_fields msg).getD 9 [] = M1) :
    create_ack ts msg =
      MLLP_START ::
        utf8Encode ("MSH|^~\\&|".data ++ C ++ "|".data ++ D ++ "|".data ++ A ++
          "|".data ++ B ++ "|".data ++ ts ++ "||ACK^P03|".data ++ M1 ++
          "|P|2.5\r".data ++ "MSA|AA|".data ++ M1 ++
          "|Message received successfully\r".data) ++ MLLP_END := by
  unfold create_ack ack_payload ctrl_fields
  rw [if_pos h10]
  simp only [hA, hB, hC, hD, hM]

theorem C5_witness :
    (first_line_fields "MSH|^~\\&|EHR|HOSP|REV|INT|20240101||FT1^P03|MSG7|P".data).length ≥
        10 ∧
      create_ack "20240102".data
          "MSH|^~\\&|EHR|HOSP|REV|INT|20240101||FT1^P03|MSG7|P".data =
        MLLP_START ::
          utf8Encode ("MSH|^~\\&|".data ++ "REV".data ++ "|".data ++ "INT".data ++
            "|".data ++ "EHR".data ++ "|".data ++ "HOSP".data ++ "|".data ++
            "20240102".data ++ "||ACK^P03|".data ++ "MSG7".data ++ "|P|2.5\r".data ++
            "MSA|AA|".data ++ "MSG7".data ++
            "|Message received successfully\r".data) ++ MLLP_END :=
  ⟨by decide,
    C5_ack_identity "20240102".data _ "EHR".data "HOSP".data "REV".data "INT".data
      "MSG7".data (by decide) (by decide) (by decide) (by decide) (by decide)
      (by decide)⟩

/-- C6 — Control-field defaulting totality: the control-field extraction in
`create_ack` is a total function of the message string (it is defined for
every `List Char`, including the empty string — `''.split('\r')` is `['']`
in Python, so no indexing error is possible), and whenever the first line
has fewer than 10 pipe-delimited fields it yields the sentinel values
`UNKNOWN`/`UNKNOWN` for the sending fields, the role defaults
`BILLING`/`HOSPITAL` for the receiving fields and `"0"` for the control
ID. -/
theorem C6_defaulting (msg : List Char)
    (h : (first_line_fields msg).length < 10) :
    ctrl_fields msg =
        ⟨"UNKNOWN".data, "UNKNOWN".data, "BILLING".data, "HOSPITAL".data, "0".data⟩ ∧
      ctrl_fields [] =
        ⟨"UNKNOWN".data, "UNKNOWN".data, "BILLING".data, "HOSPITAL".data, "0".data⟩ := by
  constructor
  · unfold ctrl_fields
    rw [if_neg (by omega)]
  · decide

theorem C6_witness :
    (first_line_fields "MSH|^~\\&|EHR".data).length < 10 ∧
      (ctrl_fields "MSH|^~\\&|EHR".data =
          ⟨"UNKNOWN".data, "UNKNOWN".data, "BILLING".data, "HOSPITAL".data,
            "0".data⟩ ∧
        ctrl_fields [] =
          ⟨"UNKNOWN".data, "UNKNOWN".data, "BILLING".data, "HOSPITAL".data,
            "0".data⟩) :=
  ⟨by decide, C6_defaulting "MSH|^~\\&|EHR".data (by decide)⟩

/-- C4 — Multi-frame batching with per-frame in-order acknowledgment: when
the frames for `p1` and `p2` arrive concatenated in one read, the receiver
decodes `[p1, p2]` in that order with empty remaining buffer, and its
observable trace is exactly store-`p1`, ACK-for-`p1`, store-`p2`,
ACK-for-`p2`: the ACK for `p1` is written before `p2` is drained from the
buffer, and there are exactly two ACKs, each built from its own message —
the last two conjuncts exhibit each ACK payload echoing the control ID
(`m1`, `m2`) of its originating message in both its MSH and MSA lines. -/
theorem C4_batching_ack_order (p1 p2 : List Nat) (ts : Nat → List Char)
    (m1 m2 : List Char) (h1 : hasEnd p1 = false) (h2 : hasEnd p2 = false)
    (e1 : (ctrl_fields (utf8DecodeReplace p1)).msg_control_id = m1)
    (e2 : (ctrl_fields (utf8DecodeReplace p2)).msg_control_id = m2) :
    mllpDrain (mllpEncode p1 ++ mllpEncode p2) = ([p1, p2], []) ∧
      drainEvents (fun _ => true) ts 0 (mllpEncode p1 ++ mllpEncode p2) =
        ([Event.stored (utf8DecodeReplace p1),
          Event.acked (create_ack (ts 0) (utf8DecodeReplace p1)),
          Event.stored (utf8DecodeReplace p2),
          Event.acked (create_ack (ts 1) (utf8DecodeReplace p2))], [], false) ∧
      ack_payload (ts 0) (utf8DecodeReplace p1) =
        "MSH|^~\\&|".data ++ (ctrl_fields (utf8DecodeReplace p1)).receiving_app ++
          "|".data ++ (ctrl_fields (utf8DecodeReplace p1)).receiving_facility ++
          "|".data ++ (ctrl_fields (utf8DecodeReplace p1)).sending_app ++ "|".data ++
          (ctrl_fields (utf8DecodeReplace p1)).sending_facility ++ "|".data ++ ts 0 ++
          "||ACK^P03|".data ++ m1 ++ "|P|2.5\r".data ++ "MSA|AA|".data ++ m1 ++
          "|Message received successfully\r".data ∧
      ack_payload (ts 1) (utf8DecodeReplace p2) =
        "MSH|^~\\&|".data ++ (ctrl_fields (utf8DecodeReplace p2)).receiving_app ++
          "|".data ++ (ctrl_fields (utf8DecodeReplace p2)).receiving_facility ++
          "|".data ++ (ctrl_fields (utf8DecodeReplace p2)).sending_app ++ "|".data ++
          (ctrl_fields (utf8DecodeReplace p2)).sending_facility ++ "|".data ++ ts 1 ++
          "||ACK^P03|".data ++ m2 ++ "|P|2.5\r".data ++ "MSA|AA|".data ++ m2 ++
          "|Message received successfully\r".data := by
  refine ⟨mllpDrain_two p1 p2 h1 h2, ?_, ?_, ?_⟩
  · have s1 := drainEvents_step_ok (fun _ => true) ts 0 [] p1 (mllpEncode p2) rfl rfl
      h1 rfl
    rw [List.nil_append] at s1
    have s2 := drainEvents_step_ok (fun _ => true) ts 1 [] p2 [] rfl rfl h2 rfl
    rw [List.nil_append, List.append_nil] at s2
    rw [s1, s2, drainEvents_nil]
  · simp only [ack_payload, e1]
  · simp only [ack_payload, e2]

theorem C4_witness :
    hasEnd (utf8Encode "MSH|^~\\&|A1|B1|C1|D1|T1||X|M1".data) = false ∧
      hasEnd (utf8Encode "MSH|^~\\&|A2|B2|C2|D2|T2||X|M2".data) = false ∧
      (ctrl_fields (utf8DecodeReplace
          (utf8Encode "MSH|^~\\&|A1|B1|C1|D1|T1||X|M1".data))).msg_control_id =
        "M1".data ∧
      (ctrl_fields (utf8DecodeReplace
          (utf8Encode "MSH|^~\\&|A2|B2|C2|D2|T2||X|M2".data))).msg_control_id =
        "M2".data ∧
      drainEvents (fun _ => true) (fun _ => "TS".data) 0
          (mllpEncode (utf8Encode "MSH|^~\\&|A1|B1|C1|D1|T1||X|M1".data) ++
            mllpEncode (utf8Encode "MSH|^~\\&|A2|B2|C2|D2|T2||X|M2".data)) =
        ([Event.stored (utf8DecodeReplace
            (utf8Encode "MSH|^~\\&|A1|B1|C1|D1|T1||X|M1".data)),
          Event.acked (create_ack "TS".data (utf8DecodeReplace
            (utf8Encode "MSH|^~\\&|A1|B1|C1|D1|T1||X|M1".data))),
          Event.stored (utf8DecodeReplace
            (utf8Encode "MSH|^~\\&|A2|B2|C2|D2|T2||X|M2".data)),
          Event.acked (create_ack "TS".data (utf8DecodeReplace
            (utf8Encode "MSH|^~\\&|A2|B2|C2|D2|T2||X|M2".data)))], [], false) :=
  ⟨by decide, by decide, by decide, by decide,
    (C4_batching_ack_order _ _ (fun _ => "TS".data) "M1".data "M2".data (by decide)
      (by decide) (by decide) (by decide)).2.1⟩

/-- C7 (counterexample) — the claim that the sender reports each failure
mode as a distinct typed outcome (connect timeout → `ConnectionError`,
response timeout → `TimeoutError`, socket closed before a complete frame →
`IncompleteResponseError`) is false: `send_hl7_message` returns in-band
strings, the connect-timeout and response-timeout outcomes are the
*identical* string `"Connection timed out"` (both raise `socket.timeout`,
caught by the same handler at sender.py line 61), and a socket closed after
a partial frame yields the decoded partial data `"MSA"` as if it were a
success — no `IncompleteResponseError` exists anywhere in the code. -/
theorem C7_counterexample :
    send_hl7_message "M".data ConnRes.connTimeout [] =
        send_hl7_message "M".data ConnRes.ok [RecvEv.tmo] ∧
      send_hl7_message "M".data ConnRes.ok
          [RecvEv.chunk [77, 83, 65], RecvEv.chunk []] = "MSA".data := by
  constructor
  · decide
  · decide

/-- C7 (amended) — the sender reports every outcome in-band as the returned
string, never raising to its caller and never retrying: connect timeout and
response timeout both yield the string `"Connection timed out"`; connection
refused yields `"Connection refused - is the server running?"`; any other
exception `m` yields `"Error: " ++ m`; a peer that closes after sending
bytes that never complete a frame yields the marker-stripped decoding of
those bytes (indistinguishable from success); a peer that closes without
sending anything yields `"No response received"`. -/
theorem C7_sender_outcomes :
    (∀ (msg : List Char) (evs : List RecvEv),
        send_hl7_message msg ConnRes.connTimeout evs = "Connection timed out".data) ∧
      (∀ (resp : List Nat) (evs : List RecvEv),
        recvLoop resp (RecvEv.tmo :: evs) = "Connection timed out".data) ∧
      (∀ (msg : List Char) (evs : List RecvEv),
        send_hl7_message msg ConnRes.refused evs =
          "Connection refused - is the server running?".data) ∧
      (∀ (msg m : List Char) (evs : List RecvEv),
        send_hl7_message msg (ConnRes.err m) evs = "Error: ".data ++ m) ∧
      (∀ msg : List Char, send_hl7_message msg ConnRes.ok [] =
        "No response received".data) ∧
      (∀ (msg : List Char) (bs : List Nat) (evs : List RecvEv), bs ≠ [] →
        hasEnd bs = false →
        send_hl7_message msg ConnRes.ok (RecvEv.chunk bs :: RecvEv.chunk [] :: evs) =
          utf8DecodeReplace (removeEnd (bs.filter (fun b => b != 0x0b)))) := by
  refine ⟨fun _ _ => rfl, fun _ _ => rfl, fun _ _ => rfl, fun _ _ _ => rfl,
    fun _ => rfl, ?_⟩
  intro msg bs evs hne hend
  show recvLoop [] (RecvEv.chunk bs :: RecvEv.chunk [] :: evs) = _
  rw [recvLoop, if_neg hne]
  simp only [List.nil_append, hend, Bool.false_eq_true, if_false]
  rw [recvLoop, if_pos rfl, respond, if_pos hne]

theorem C7_witness :
    (([77] : List Nat) ≠ []) ∧ hasEnd [77] = false ∧
      send_hl7_message "X".data ConnRes.ok
          [RecvEv.chunk [77], RecvEv.chunk []] = "M".data :=
  ⟨by decide, by decide, by
    have h := C7_sender_outcomes.2.2.2.2.2 "X".data [77] [] (by decide) (by decide)
    rw [h]
    decide⟩

/-- C8 (counterexample) — the claim that a storage failure is logged and the
acknowledgment is still sent, the session continuing, is false: in
`handle_client` the `save_message(hl7_message)` call (line 136) sits
*before* `create_ack`/`conn.send` (lines 139-140) inside the `try:` whose
`except` (line 144) is outside both `while` loops, so an exception raised by
`save_message` skips the ACK, abandons the rest of the buffer and closes the
connection.  Concretely: a one-frame buffer whose store fails produces the
trace `[storeFailed 'M']` — no `acked` event — with the session-aborted flag
set; in particular the ACK frame for that message is not among the events. -/
theorem C8_counterexample :
    drainEvents (fun _ => false) (fun _ => []) 0 (mllpEncode [77]) =
        ([Event.storeFailed ['M']], [], true) ∧
      Event.acked (create_ack [] ['M']) ∉ [Event.storeFailed ['M']] := by
  constructor
  · have h := drainEvents_step_fail (fun _ => false) (fun _ => []) 0 [] [77] [] rfl rfl
      (by decide) rfl
    rw [List.nil_append, List.append_nil] at h
    rw [show utf8DecodeReplace [77] = ['M'] from by decide] at h
    exact h
  · decide

/-- C8 (amended) — for every decoded message, if the storage collaborator
fails while persisting the payload, the receiver logs the failure, does
*not* send the acknowledgment for that message, stops draining (any bytes
after the failing frame are never processed), and the session is closed. -/
theorem C8_storage_failure_aborts (storeOk : List Char → Bool) (ts : Nat → List Char)
    (k : Nat) (p t : List Nat) (hp : hasEnd p = false)
    (hfail : storeOk (utf8DecodeReplace p) = false) :
    drainEvents storeOk ts k (mllpEncode p ++ t) =
      ([Event.storeFailed (utf8DecodeReplace p)], t, true) := by
  have h := drainEvents_step_fail storeOk ts k [] p t rfl rfl hp hfail
  rwa [List.nil_append] at h

theorem C8_witness :
    hasEnd [77] = false ∧ (fun _ : List Char => false) (utf8DecodeReplace [77]) = false ∧
      drainEvents (fun _ => false) (fun _ => []) 0 (mllpEncode [77] ++ [5, 6]) =
        ([Event.storeFailed (utf8DecodeReplace [77])], [5, 6], true) :=
  ⟨by decide, by decide,
    C8_storage_failure_aborts (fun _ => false) (fun _ => []) 0 [77] [5, 6] (by decide)
      (by decide)⟩

namespace Server

theorem extract_step_msgtype (info : MsgInfo) (line : List Char)
    (h : strStarts "MSH|".data line = false) :
    (extract_info_step info line).message_type = info.message_type := by
  unfold extract_info_step
  rw [if_neg (by simp [h])]
  dsimp only
  split_ifs <;> rfl

theorem foldl_msgtype (lines : List (List Char)) (init : MsgInfo)
    (h : ∀ l ∈ lines, strStarts "MSH|".data l = false) :
    (lines.foldl extract_info_step init).message_type = init.message_type := by
  induction lines generalizing init with
  | nil => rfl
  | cons l ls ih =>
    rw [List.foldl_cons, ih _ (fun x hx => h x (List.mem_cons_of_mem _ hx)),
      extract_step_msgtype _ _ (h l (List.mem_cons_self _ _))]

end Server

/-- C9 (counterexample) — the claim that field 9 (0-indexed by pipe splits)
of the first line is the message-type field and field 10 the message
identifier is false by one position: for the standard MSH line below,
`extract_message_info` reports the message type from field 8 (`MDM^T02`,
not field 9's `MSG001`), and `create_ack` correlates the acknowledgment via
field 9 (`MSG001`, not field 10's `P`). -/
theorem C9_counterexample :
    (extract_message_info
        "MSH|^~\\&|EHR|HOSP|REV|INT|20240101||MDM^T02|MSG001|P|2.5".data).message_type =
        "MDM^T02".data ∧
      (first_line_fields
          "MSH|^~\\&|EHR|HOSP|REV|INT|20240101||MDM^T02|MSG001|P|2.5".data).getD 9 [] =
        "MSG001".data ∧
      (ctrl_fields
          "MSH|^~\\&|EHR|HOSP|REV|INT|20240101||MDM^T02|MSG001|P|2.5".data).msg_control_id =
        "MSG001".data ∧
      (first_line_fields
          "MSH|^~\\&|EHR|HOSP|REV|INT|20240101||MDM^T02|MSG001|P|2.5".data).getD 10 [] =
        "P".data ∧
      "MDM^T02".data ≠ "MSG001".data ∧ "MSG001".data ≠ "P".data := by
  refine ⟨by decide, by decide, by decide, by decide, by decide, by decide⟩

/-- C9 (amended) — header field positions: for every decoded payload whose
first line is an MSH segment (and whose other lines are not), field 8
(0-indexed by pipe splits) of the first line is treated as the message-type
field (when present, else the `Unknown` default), and field 9 (when at
least 10 fields exist, else the `"0"` default) is the message control ID
used to correlate the acknowledgment. -/
theorem C9_field_positions (msg : List Char) (fl : List Char)
    (restLines : List (List Char)) (hsplit : msg.splitOn '\r' = fl :: restLines)
    (hMSH : strStarts "MSH|".data fl = true)
    (hothers : ∀ l ∈ restLines, strStarts "MSH|".data l = false) :
    (extract_message_info msg).message_type =
        (if (fl.splitOn '|').length > 8 then (fl.splitOn '|').getD 8 []
          else "Unknown".data) ∧
      (ctrl_fields msg).msg_control_id =
        (if (first_line_fields msg).length ≥ 10 then (first_line_fields msg).getD 9 []
          else "0".data) := by
  constructor
  · unfold extract_message_info
    rw [hsplit, List.foldl_cons, foldl_msgtype _ _ hothers]
    unfold extract_info_step
    rw [if_pos hMSH]
    dsimp only
    split_ifs <;> rfl
  · simp only [ctrl_fields]
    split_ifs <;> rfl

theorem C9_witness :
    "MSH|^~\\&|EHR|HOSP|REV|INT|T||MDM^T02|MSG9|P|2.5\rPID|1||PAT7".data.splitOn '\r' =
        ["MSH|^~\\&|EHR|HOSP|REV|INT|T||MDM^T02|MSG9|P|2.5".data,
          "PID|1||PAT7".data] ∧
      strStarts "MSH|".data "MSH|^~\\&|EHR|HOSP|REV|INT|T||MDM^T02|MSG9|P|2.5".data =
        true ∧
      ((extract_message_info
          "MSH|^~\\&|EHR|HOSP|REV|INT|T||MDM^T02|MSG9|P|2.5\rPID|1||PAT7".data).message_type =
          (if ("MSH|^~\\&|EHR|HOSP|REV|INT|T||MDM^T02|MSG9|P|2.5".data.splitOn '|').length > 8
            then ("MSH|^~\\&|EHR|HOSP|REV|INT|T||MDM^T02|MSG9|P|2.5".data.splitOn '|').getD 8 []
            else "Unknown".data) ∧
        (ctrl_fields
            "MSH|^~\\&|EHR|HOSP|REV|INT|T||MDM^T02|MSG9|P|2.5\rPID|1||PAT7".data).msg_control_id =
          (if (first_line_fields
              "MSH|^~\\&|EHR|HOSP|REV|INT|T||MDM^T02|MSG9|P|2.5\rPID|1||PAT7".data).length ≥ 10
            then (first_line_fields
              "MSH|^~\\&|EHR|HOSP|REV|INT|T||MDM^T02|MSG9|P|2.5\rPID|1||PAT7".data).getD 9 []
            else "0".data)) :=
  ⟨by decide, by decide,
    C9_field_positions _ _ ["PID|1||PAT7".data] (by decide) (by decide)
      (by decide)⟩

/-- C10 — Lossy but total payload decoding: (i) for every frame payload byte
string `p` — arbitrary binary, valid UTF-8 or not — the receiver processes
the frame without failing, and the payload it stores and acknowledges is
exactly `utf8DecodeReplace p`, the UTF-8 decoding of the raw bytes between
the markers with replacement; (ii) that decoding is exact on well-formed
UTF-8 (so it is "the UTF-8 decoding"); (iii) on every input it either
re-encodes byte-for-byte or contains U+FFFD — every ill-formed sequence is
replaced by U+FFFD and only then are bytes lost; (iv) concretely, the
invalid payload `[0xFF]` is decoded (not crashed on) as U+FFFD and is not
delivered byte-for-byte. -/
theorem C10_lossy_total_decode :
    (∀ (p : List Nat) (storeOk : List Char → Bool) (ts : Nat → List Char) (k : Nat),
        hasEnd p = false → storeOk (utf8DecodeReplace p) = true →
        drainEvents storeOk ts k (mllpEncode p) =
          ([Event.stored (utf8DecodeReplace p),
            Event.acked (create_ack (ts k) (utf8DecodeReplace p))], [], false)) ∧
      (∀ s : List Char, utf8DecodeReplace (utf8Encode s) = s) ∧
      (∀ bs : List Nat,
        utf8Encode (utf8DecodeReplace bs) = bs ∨ replChar ∈ utf8DecodeReplace bs) ∧
      (utf8DecodeReplace [0xff] = [replChar] ∧
        utf8Encode (utf8DecodeReplace [0xff]) ≠ [0xff]) := by
  refine ⟨?_, decode_encode, encode_decode_or_repl, by decide, by decide⟩
  intro p storeOk ts k hp hok
  have h := drainEvents_step_ok storeOk ts k [] p [] rfl rfl hp hok
  rw [List.nil_append, List.append_nil] at h
  rw [h, drainEvents_nil]

theorem C10_witness :
    hasEnd [0xff, 0x41] = false ∧
      (fun _ : List Char => true) (utf8DecodeReplace [0xff, 0x41]) = true ∧
      drainEvents (fun _ => true) (fun _ => []) 0 (mllpEncode [0xff, 0x41]) =
        ([Event.stored (utf8DecodeReplace [0xff, 0x41]),
          Event.acked (create_ack [] (utf8DecodeReplace [0xff, 0x41]))], [], false) ∧
      utf8DecodeReplace (utf8Encode "é".data) = "é".data ∧
      (utf8Encode (utf8DecodeReplace [0x80]) = [0x80] ∨
        replChar ∈ utf8DecodeReplace [0x80]) :=
  ⟨by decide, by decide,
    C10_lossy_total_decode.1 [0xff, 0x41] (fun _ => true) (fun _ => []) 0 (by decide)
      (by decide),
    C10_lossy_total_decode.2.1 "é".data,
    C10_lossy_total_decode.2.2.1 [0x80]⟩
